import Mathlib

/-!
Verification of the annotated-content renderer of `ve.ce.TextNode`
(`src/modules/ve2/ce/nodes/ve.ce.TextNode.js`).

The renderer walks a flat sequence of content units (a plain character, or a
character together with the list of annotation instances applied to it),
diffs consecutive annotation sets, and drives a nesting stack to emit a
single markup string with properly nested open/close tags.

Shallow embedding conventions:
* A JavaScript annotation object is modelled by `Ann`; the `ref` field stands
  for the object's reference, so JavaScript identity comparison of two
  annotation objects corresponds to equality of `Ann` values (two distinct
  instances always carry distinct `ref`s, even when `type` and `data` agree).
* `ve.inArray` (an `indexOf` wrapper returning -1 when absent) is modelled by
  `inArrayIdx`, returning `none` for -1.
* String building by `out += ...` is modelled by string concatenation in an
  `Except` monad; the two `throw` sites of the code become the two
  constructors of `RenderError`:
  - `stackError` for the explicit `throw 'Invalid stack error. ...'`;
  - `typeError` for the implicit TypeError raised by
    `renderers[stack[i].type].close` / `.open` when `stack[i].type` is not a
    key of `annotationRenderers` (an unguarded property access on
    `undefined`).
-/

/-- Payload of an annotation (`annotation.data`).  Only the fields read by the
render rules of `annotationRenderers` are modelled. -/
structure AnnData where
  html : String
  href : String
  title : String
deriving DecidableEq

/-- An annotation instance.  `ref` models the JavaScript object reference:
equality on `Ann` corresponds to the `===` identity comparison used by
`ve.inArray` and the stack logic. -/
structure Ann where
  ref : Nat
  type : String
  data : AnnData
deriving DecidableEq

/-- An open or close rendering: either a fixed string or a function of the
annotation payload (the `typeof ... === 'function'` dispatch in the code). -/
inductive Rendering where
  | str : String → Rendering
  | fn : (AnnData → String) → Rendering

/-- Resolve a rendering against an annotation payload. -/
def Rendering.resolve : Rendering → AnnData → String
  | .str s, _ => s
  | .fn f, d => f d

/-- A registered annotation renderer: an open and a close rendering.  The
`open` property of the source is called `open_` (`open` is a Lean keyword). -/
structure RenderRule where
  open_ : Rendering
  close : Rendering

/-- `ve.ce.TextNode.annotationRenderers`: the registry mapping an annotation
type to its render rule; `none` models absence of the key. -/
def annotationRenderers : String → Option RenderRule
  | "object/template" =>
      some ⟨.fn (fun d => "<span class=\"ve-ce-content-format-object\">" ++ d.html),
        .str "</span>"⟩
  | "object/hook" =>
      some ⟨.fn (fun d => "<span class=\"ve-ce-content-format-object\">" ++ d.html),
        .str "</span>"⟩
  | "textStyle/bold" => some ⟨.str "<b>", .str "</b>"⟩
  | "textStyle/italic" => some ⟨.str "<i>", .str "</i>"⟩
  | "textStyle/strong" =>
      some ⟨.str "<span class=\"ve-ce-content-format-textStyle-strong\">", .str "</span>"⟩
  | "textStyle/emphasize" =>
      some ⟨.str "<span class=\"ve-ce-content-format-textStyle-emphasize\">", .str "</span>"⟩
  | "textStyle/big" =>
      some ⟨.str "<span class=\"ve-ce-content-format-textStyle-big\">", .str "</span>"⟩
  | "textStyle/small" =>
      some ⟨.str "<span class=\"ve-ce-content-format-textStyle-small\">", .str "</span>"⟩
  | "textStyle/superScript" =>
      some ⟨.str "<span class=\"ve-ce-content-format-textStyle-superScript\">", .str "</span>"⟩
  | "textStyle/subScript" =>
      some ⟨.str "<span class=\"ve-ce-content-format-textStyle-subScript\">", .str "</span>"⟩
  | "link/external" =>
      some ⟨.fn (fun d => "<span class=\"ve-ce-content-format-link\" data-href=\"" ++
        d.href ++ "\">"), .str "</span>"⟩
  | "link/internal" =>
      some ⟨.fn (fun d => "<span class=\"ve-ce-content-format-link\" data-title=\"wiki/" ++
        d.title ++ "\">"), .str "</span>"⟩
  | _ => none

/-- `ve.ce.TextNode.htmlCharacters`: the escaping table; `none` models a
character that is not a key of the object (rendered literally). -/
def htmlCharacters : String → Option String
  | "&" => some "&amp;"
  | "<" => some "&lt;"
  | ">" => some "&gt;"
  | "\'" => some "&#039;"
  | "\"" => some "&quot;"
  | "\n" => some "<span class=\"ve-ce-content-whitespace\">&#182;</span>"
  | "\t" => some "<span class=\"ve-ce-content-whitespace\">&#8702;</span>"
  | _ => none

/-- The `bias` argument of `renderAnnotation` (`'open'` or `'close'`). -/
inductive Bias where
  | open_ : Bias
  | close : Bias
deriving DecidableEq

/-- The two ways the render code can throw: `stackError` is the explicit
`throw 'Invalid stack error. An element is missing from the stack.'`;
`typeError` is the TypeError of an unguarded `renderers[...]` access on a
type that is not registered. -/
inductive RenderError where
  | stackError : RenderError
  | typeError : RenderError
deriving DecidableEq

/-- One element of the linear data returned by `doc.getDataFromNode`:
a plain character (a JavaScript string) or an array whose head is the
character and whose tail is the list of annotation instances
(`[chr, ann1, ann2, ...]`). -/
inductive ContentUnit where
  | plain : String → ContentUnit
  | annotated : String → List Ann → ContentUnit
deriving DecidableEq

/-- The character of a unit (`right` itself when plain, `right[0]` when
annotated). -/
def ContentUnit.chr : ContentUnit → String
  | .plain s => s
  | .annotated s _ => s

/-- The annotation list of a unit (elements `1 ..` of the array; a plain unit
has none). -/
def ContentUnit.anns : ContentUnit → List Ann
  | .plain _ => []
  | .annotated _ l => l

/-- The `typeof x === 'string'` test used for `leftPlain` / `rightPlain`. -/
def ContentUnit.isPlain : ContentUnit → Bool
  | .plain _ => true
  | .annotated _ _ => false

/-- Escape a character through `htmlCharacters`
(`chr in htmlChars ? htmlChars[chr] : chr`). -/
def escapeChar (c : String) : String :=
  match htmlCharacters c with
  | some s => s
  | none => c

/-- The literal rendering of a unit's character. -/
def renderChar (u : ContentUnit) : String :=
  escapeChar u.chr

/-- `ve.inArray( x, arr )`, which is `arr.indexOf( x )` with `===`
comparison; `none` models the -1 result. -/
def inArrayIdx (x : Ann) : List Ann → Option Nat
  | [] => none
  | b :: rest => if b = x then some 0 else (inArrayIdx x rest).map (fun n => n + 1)

/-- The close markup of an annotation whose type is registered; `""` when the
type is unknown (only used to describe outputs of runs in which the type is
known to be registered). -/
def closeMarkup (a : Ann) : String :=
  match annotationRenderers a.type with
  | some r => r.close.resolve a.data
  | none => ""

/-- The open markup of an annotation whose type is registered; `""` when the
type is unknown. -/
def openMarkup (a : Ann) : String :=
  match annotationRenderers a.type with
  | some r => r.open_.resolve a.data
  | none => ""

/-- Emit close markup for each annotation of a list in list order, failing
with `typeError` when an annotation's type has no registry entry (the
unguarded `renderers[stack[i].type].close` loop of the buried-close path,
whose iteration from the top of the stack downward corresponds to passing
the reversed slice here). -/
def closeSeq : List Ann → Except RenderError String
  | [] => .ok ""
  | a :: rest =>
    match annotationRenderers a.type with
    | none => .error .typeError
    | some r => (closeSeq rest).map (fun s => r.close.resolve a.data ++ s)

/-- Emit open markup for each annotation of a list in list order, failing
with `typeError` when an annotation's type has no registry entry (the
unguarded `renderers[stack[i].type].open` re-open loop of the buried-close
path). -/
def openSeq : List Ann → Except RenderError String
  | [] => .ok ""
  | a :: rest =>
    match annotationRenderers a.type with
    | none => .error .typeError
    | some r => (openSeq rest).map (fun s => r.open_.resolve a.data ++ s)

/-- `ve.ce.TextNode.renderAnnotation( bias, annotation, stack )`.

Returns the emitted markup together with the mutated stack.  The branches of
the source are mirrored one to one:
* unknown type: the whole body is skipped, `out` stays `''`;
* open: push, emit open markup;
* close, annotation on top (`stack[stack.length-1] === annotation`): pop,
  emit close markup;
* close, annotation buried: find the first index via `ve.inArray`; `-1`
  throws the invalid-stack error; otherwise close everything above it from
  the top of the stack downward, close the annotation, re-open the covering
  annotations in stack order, and `splice` the annotation out. -/
def renderAnn (bias : Bias) (ann : Ann) (stack : List Ann) :
    Except RenderError (String × List Ann) :=
  match annotationRenderers ann.type with
  | none => .ok ("", stack)
  | some rule =>
    match bias with
    | .open_ => .ok (rule.open_.resolve ann.data, stack ++ [ann])
    | .close =>
      if stack.getLast? = some ann then
        .ok (rule.close.resolve ann.data, stack.dropLast)
      else
        match inArrayIdx ann stack with
        | none => .error .stackError
        | some depth => do
          let s1 ← closeSeq ((stack.drop (depth + 1)).reverse)
          let s3 ← openSeq (stack.drop (depth + 1))
          .ok (s1 ++ rule.close.resolve ann.data ++ s3,
            stack.take depth ++ stack.drop (depth + 1))

/-- Close every annotation of a list in list order, threading the stack (the
unconditional `for` close loops of `getHtml`: the formatted-to-plain
transition and the trailing close of the last unit). -/
def closeList : List Ann → List Ann → Except RenderError (String × List Ann)
  | [], stack => .ok ("", stack)
  | a :: rest, stack => do
    let p1 ← renderAnn .close a stack
    let p2 ← closeList rest p1.2
    .ok (p1.1 ++ p2.1, p2.2)

/-- Open every annotation of a list in list order, threading the stack (the
unconditional `for` open loop of the plain-to-formatted transition). -/
def openList : List Ann → List Ann → Except RenderError (String × List Ann)
  | [], stack => .ok ("", stack)
  | a :: rest, stack => do
    let p1 ← renderAnn .open_ a stack
    let p2 ← openList rest p1.2
    .ok (p1.1 ++ p2.1, p2.2)

/-- Close each annotation of the first list that is absent (by identity) from
`other` (the formatted-to-formatted close loop of `getHtml`, whose
`ve.inArray( left[j], right )` membership test can only match annotation
elements of the array `right`, never its character head, because an
annotation object is not identical to a string). -/
def closeListIn (other : List Ann) : List Ann → List Ann →
    Except RenderError (String × List Ann)
  | [], stack => .ok ("", stack)
  | a :: rest, stack =>
    if other.contains a then closeListIn other rest stack
    else do
      let p1 ← renderAnn .close a stack
      let p2 ← closeListIn other rest p1.2
      .ok (p1.1 ++ p2.1, p2.2)

/-- Open each annotation of the first list that is absent (by identity) from
`other` (the formatted-to-formatted open loop of `getHtml`). -/
def openListIn (other : List Ann) : List Ann → List Ann →
    Except RenderError (String × List Ann)
  | [], stack => .ok ("", stack)
  | a :: rest, stack =>
    if other.contains a then openListIn other rest stack
    else do
      let p1 ← renderAnn .open_ a stack
      let p2 ← openListIn other rest p1.2
      .ok (p1.1 ++ p2.1, p2.2)

/-- The per-pair transition markup of the `getHtml` loop body: the four
`leftPlain` / `rightPlain` cases of the source, each driving the matching
close/open loops. -/
def transition (left right : ContentUnit) (stack : List Ann) :
    Except RenderError (String × List Ann) :=
  match left, right with
  | .plain _, .plain _ => .ok ("", stack)
  | .annotated _ lAnns, .plain _ => closeList lAnns stack
  | .plain _, .annotated _ rAnns => openList rAnns stack
  | .annotated _ lAnns, .annotated _ rAnns => do
    let p1 ← closeListIn rAnns lAnns stack
    let p2 ← openListIn lAnns rAnns p1.2
    .ok (p1.1 ++ p2.1, p2.2)

/-- The main loop of `getHtml`, threading `left` (the previous unit,
initially the plain empty string) and the stack, and appending the trailing
close loop of the source after the last unit (`if ( !rightPlain && right )`:
skipped when the data was empty — here `left` is then still the initial
plain unit — or when the last unit was plain).  Returns the output string
together with the final stack. -/
def renderLoop (left : ContentUnit) (stack : List Ann) :
    List ContentUnit → Except RenderError (String × List Ann)
  | [] =>
    if left.isPlain then .ok ("", stack)
    else closeList left.anns stack
  | r :: rest => do
    let p1 ← transition left r stack
    let p2 ← renderLoop r p1.2 rest
    .ok (p1.1 ++ renderChar r ++ p2.1, p2.2)

/-- The `range` argument of `getHtml`.  `stop` models the `end` property
(`none` standing for `undefined`). -/
structure VeRange where
  start : Int
  stop : Option Int
deriving DecidableEq

/-- Modelled from the spec: `ve.Range.prototype.normalize` is not part of the
given sources (only its call site in `getHtml` is); it reorders the range's
endpoints in place.  Its result is never read by `getHtml`, so its exact
definition does not affect any theorem about the returned string. -/
def VeRange.normalize (r : VeRange) : VeRange :=
  match r.stop with
  | none => r
  | some e => if e < r.start then ⟨e, some r.start⟩ else r

/-- `ve.ce.TextNode.prototype.getHtml( range )`.  The source normalizes a
supplied range (or substitutes a default object) and never reads it again;
the walk over the node data produces the output string. -/
def getHtml (range : Option VeRange) (data : List ContentUnit) :
    Except RenderError String :=
  let _range : VeRange :=
    match range with
    | some r => r.normalize
    | none => ⟨0, none⟩
  (renderLoop (.plain "") [] data).map (fun p => p.1)

/-! ## Event-level view of the renderer

To reason about tag nesting and open/close counts, a parallel embedding
records the markup fragments the renderer emits as a list of events (an open
tag, a close tag, or literal character text) instead of a concatenated
string.  Each event function mirrors the corresponding string function
branch for branch, and the correspondence theorems below prove that the
string output is exactly the concatenation of the rendered events. -/

/-- One emitted markup fragment. -/
inductive REvent where
  | opened : Ann → REvent
  | closed : Ann → REvent
  | text : String → REvent
deriving DecidableEq

/-- The string a single event contributes to the output. -/
def eventStr : REvent → String
  | .opened a => openMarkup a
  | .closed a => closeMarkup a
  | .text s => s

/-- Concatenation of the strings of a list of events. -/
def joinEv : List REvent → String
  | [] => ""
  | e :: rest => eventStr e ++ joinEv rest

/-- Event-level `closeSeq`. -/
def closeSeqEv : List Ann → Except RenderError (List REvent)
  | [] => .ok []
  | a :: rest =>
    match annotationRenderers a.type with
    | none => .error .typeError
    | some _ => (closeSeqEv rest).map (fun l => .closed a :: l)

/-- Event-level `openSeq`. -/
def openSeqEv : List Ann → Except RenderError (List REvent)
  | [] => .ok []
  | a :: rest =>
    match annotationRenderers a.type with
    | none => .error .typeError
    | some _ => (openSeqEv rest).map (fun l => .opened a :: l)

/-- Event-level `renderAnn`. -/
def renderAnnEv (bias : Bias) (ann : Ann) (stack : List Ann) :
    Except RenderError (List REvent × List Ann) :=
  match annotationRenderers ann.type with
  | none => .ok ([], stack)
  | some _ =>
    match bias with
    | .open_ => .ok ([.opened ann], stack ++ [ann])
    | .close =>
      if stack.getLast? = some ann then
        .ok ([.closed ann], stack.dropLast)
      else
        match inArrayIdx ann stack with
        | none => .error .stackError
        | some depth => do
          let e1 ← closeSeqEv ((stack.drop (depth + 1)).reverse)
          let e3 ← openSeqEv (stack.drop (depth + 1))
          .ok (e1 ++ [.closed ann] ++ e3,
            stack.take depth ++ stack.drop (depth + 1))

/-- Event-level `closeList`. -/
def closeListEv : List Ann → List Ann → Except RenderError (List REvent × List Ann)
  | [], stack => .ok ([], stack)
  | a :: rest, stack => do
    let p1 ← renderAnnEv .close a stack
    let p2 ← closeListEv rest p1.2
    .ok (p1.1 ++ p2.1, p2.2)

/-- Event-level `openList`. -/
def openListEv : List Ann → List Ann → Except RenderError (List REvent × List Ann)
  | [], stack => .ok ([], stack)
  | a :: rest, stack => do
    let p1 ← renderAnnEv .open_ a stack
    let p2 ← openListEv rest p1.2
    .ok (p1.1 ++ p2.1, p2.2)

/-- Event-level `closeListIn`. -/
def closeListInEv (other : List Ann) : List Ann → List Ann →
    Except RenderError (List REvent × List Ann)
  | [], stack => .ok ([], stack)
  | a :: rest, stack =>
    if other.contains a then closeListInEv other rest stack
    else do
      let p1 ← renderAnnEv .close a stack
      let p2 ← closeListInEv other rest p1.2
      .ok (p1.1 ++ p2.1, p2.2)

/-- Event-level `openListIn`. -/
def openListInEv (other : List Ann) : List Ann → List Ann →
    Except RenderError (List REvent × List Ann)
  | [], stack => .ok ([], stack)
  | a :: rest, stack =>
    if other.contains a then openListInEv other rest stack
    else do
      let p1 ← renderAnnEv .open_ a stack
      let p2 ← openListInEv other rest p1.2
      .ok (p1.1 ++ p2.1, p2.2)

/-- Event-level `transition`. -/
def transitionEv (left right : ContentUnit) (stack : List Ann) :
    Except RenderError (List REvent × List Ann) :=
  match left, right with
  | .plain _, .plain _ => .ok ([], stack)
  | .annotated _ lAnns, .plain _ => closeListEv lAnns stack
  | .plain _, .annotated _ rAnns => openListEv rAnns stack
  | .annotated _ lAnns, .annotated _ rAnns => do
    let p1 ← closeListInEv rAnns lAnns stack
    let p2 ← openListInEv lAnns rAnns p1.2
    .ok (p1.1 ++ p2.1, p2.2)

/-- Event-level `renderLoop`: the character of each unit becomes a `text`
event between the transition's events and the rest of the run. -/
def renderLoopEv (left : ContentUnit) (stack : List Ann) :
    List ContentUnit → Except RenderError (List REvent × List Ann)
  | [] =>
    if left.isPlain then .ok ([], stack)
    else closeListEv left.anns stack
  | r :: rest => do
    let p1 ← transitionEv left r stack
    let p2 ← renderLoopEv r p1.2 rest
    .ok (p1.1 ++ [.text (renderChar r)] ++ p2.1, p2.2)

/-- The transition of the `getHtml` loop, restated the way the specification
describes it: compute the two sides of the symmetric difference of the
annotation sets (by identity), close the previous unit's annotations absent
from the current unit in listed order, then open the current unit's
annotations absent from the previous unit in listed order, a plain unit
counting as the empty annotation set. -/
def transitionSpec (left right : ContentUnit) (stack : List Ann) :
    Except RenderError (String × List Ann) := do
  let p1 ← closeList (left.anns.filter (fun a => !(right.anns.contains a))) stack
  let p2 ← openList (right.anns.filter (fun a => !(left.anns.contains a))) p1.2
  .ok (p1.1 ++ p2.1, p2.2)

/-- The stack automaton that defines proper nesting of a list of tag events:
an open pushes, a close must match the innermost open tag and pops, text is
skipped; the result is the final automaton stack, or `none` when some close
does not match the innermost open tag. -/
def checkNested (st : List Ann) : List REvent → Option (List Ann)
  | [] => some st
  | .opened a :: rest => checkNested (st ++ [a]) rest
  | .closed a :: rest =>
    if st.getLast? = some a then checkNested st.dropLast rest else none
  | .text _ :: rest => checkNested st rest

/-- Concrete registered annotation instance (bold), reference 0. -/
def annA : Ann := ⟨0, "textStyle/bold", ⟨"", "", ""⟩⟩

/-- Concrete registered annotation instance (italic), reference 1. -/
def annB : Ann := ⟨1, "textStyle/italic", ⟨"", "", ""⟩⟩

/-- Concrete annotation instance of an unregistered type, reference 2. -/
def annU : Ann := ⟨2, "textStyle/unknown", ⟨"", "", ""⟩⟩

/-- A second bold instance, structurally identical to `annA` apart from its
reference: a distinct instance of an identical annotation. -/
def annA2 : Ann := ⟨3, "textStyle/bold", ⟨"", "", ""⟩⟩

/-! ## Basic lemmas -/

/-- Bind on a successful `Except` value. -/
theorem ebind_ok {α β : Type} (a : α) (f : α → Except RenderError β) :
    (Except.ok a >>= f) = f a := rfl

/-- Bind on a failed `Except` value. -/
theorem ebind_error {α β : Type} (e : RenderError) (f : α → Except RenderError β) :
    ((Except.error e : Except RenderError α) >>= f) = Except.error e := rfl

/-- Map on a successful `Except` value. -/
theorem emap_ok {α β : Type} (a : α) (f : α → β) :
    (Except.ok a : Except RenderError α).map f = Except.ok (f a) := rfl

/-- Map on a failed `Except` value. -/
theorem emap_error {α β : Type} (e : RenderError) (f : α → β) :
    (Except.error e : Except RenderError α).map f = Except.error e := rfl

/-- An annotation's type has an entry in the registry
(the `type in renderers` guard). -/
def isReg (a : Ann) : Bool :=
  (annotationRenderers a.type).isSome

/-- `ve.inArray` returns -1 exactly for elements absent from the array. -/
theorem inArrayIdx_eq_none {x : Ann} {l : List Ann} :
    inArrayIdx x l = none ↔ x ∉ l := by
  induction l with
  | nil => simp [inArrayIdx]
  | cons b rest ih =>
    by_cases hbx : b = x
    · simp [inArrayIdx, hbx]
    · simp [inArrayIdx, hbx, Option.map_eq_none', ih, Ne.symm hbx]

/-- A present element has a `ve.inArray` index. -/
theorem inArrayIdx_exists_of_mem {x : Ann} {l : List Ann} (h : x ∈ l) :
    ∃ d, inArrayIdx x l = some d := by
  cases hidx : inArrayIdx x l with
  | none => exact absurd (inArrayIdx_eq_none.mp hidx) (by simp [h])
  | some d => exact ⟨d, rfl⟩

/-- Splitting a list at the `ve.inArray` index of an element: the element sits
at that index. -/
theorem inArrayIdx_decomp {x : Ann} {l : List Ann} {d : Nat}
    (h : inArrayIdx x l = some d) :
    l.take d ++ x :: l.drop (d + 1) = l := by
  induction l generalizing d with
  | nil => simp [inArrayIdx] at h
  | cons b rest ih =>
    by_cases hbx : b = x
    · simp [inArrayIdx, hbx] at h
      subst h
      simp [hbx]
    · simp [inArrayIdx, hbx] at h
      obtain ⟨d2, hd2, hplus⟩ := h
      subst hplus
      simpa using ih hd2

/-- Removing the element at its `ve.inArray` index (the `splice( depth, 1 )`
of the buried-close path) is erasure of the first occurrence. -/
theorem inArrayIdx_splice {x : Ann} {l : List Ann} {d : Nat}
    (h : inArrayIdx x l = some d) :
    l.take d ++ l.drop (d + 1) = l.erase x := by
  induction l generalizing d with
  | nil => simp [inArrayIdx] at h
  | cons b rest ih =>
    by_cases hbx : b = x
    · simp [inArrayIdx, hbx] at h
      subst h
      simp [List.erase_cons, hbx]
    · simp [inArrayIdx, hbx] at h
      obtain ⟨d2, hd2, hplus⟩ := h
      subst hplus
      have hbeq : (b == x) = false := by simp [hbx]
      simp [List.erase_cons, hbeq]
      exact ih hd2

/-- `List.contains` agrees with membership (identity comparison). -/
theorem contains_iff_mem {l : List Ann} {a : Ann} :
    l.contains a = true ↔ a ∈ l := by
  simp [List.contains]

/-- On a list of registered annotations, the buried-close close loop cannot
fail and emits the concatenated close markup in list order. -/
theorem closeSeq_of_reg {l : List Ann} (h : ∀ b ∈ l, isReg b = true) :
    closeSeq l = .ok (joinEv (l.map REvent.closed)) := by
  induction l with
  | nil => rfl
  | cons a rest ih =>
    have ha : isReg a = true := h a (by simp)
    obtain ⟨r, hr⟩ := Option.isSome_iff_exists.mp ha
    have hrest := ih (fun b hb => h b (by simp [hb]))
    simp [closeSeq, hr, hrest, joinEv, eventStr, closeMarkup, Except.map]

/-- On a list of registered annotations, the buried-close re-open loop cannot
fail and emits the concatenated open markup in list order. -/
theorem openSeq_of_reg {l : List Ann} (h : ∀ b ∈ l, isReg b = true) :
    openSeq l = .ok (joinEv (l.map REvent.opened)) := by
  induction l with
  | nil => rfl
  | cons a rest ih =>
    have ha : isReg a = true := h a (by simp)
    obtain ⟨r, hr⟩ := Option.isSome_iff_exists.mp ha
    have hrest := ih (fun b hb => h b (by simp [hb]))
    simp [openSeq, hr, hrest, joinEv, eventStr, openMarkup, Except.map]

/-- Rendering a concatenation of events concatenates their strings. -/
theorem joinEv_append (l1 l2 : List REvent) :
    joinEv (l1 ++ l2) = joinEv l1 ++ joinEv l2 := by
  induction l1 with
  | nil => simp [joinEv, String.empty_append]
  | cons e rest ih => simp [joinEv, ih, String.append_assoc]

/-- The string emitted by the buried-close close loop is the rendering of its
event-level counterpart. -/
theorem closeSeq_corr (l : List Ann) :
    closeSeq l = (closeSeqEv l).map joinEv := by
  induction l with
  | nil => rfl
  | cons a rest ih =>
    cases hr : annotationRenderers a.type with
    | none => simp [closeSeq, closeSeqEv, hr, Except.map]
    | some r =>
      cases hrest : closeSeqEv rest with
      | error e => simp [closeSeq, closeSeqEv, hr, ih, hrest, emap_error]
      | ok evs =>
        simp [closeSeq, closeSeqEv, hr, ih, hrest, emap_ok, joinEv, eventStr,
          closeMarkup, Except.map]

/-- The string emitted by the buried-close re-open loop is the rendering of
its event-level counterpart. -/
theorem openSeq_corr (l : List Ann) :
    openSeq l = (openSeqEv l).map joinEv := by
  induction l with
  | nil => rfl
  | cons a rest ih =>
    cases hr : annotationRenderers a.type with
    | none => simp [openSeq, openSeqEv, hr, Except.map]
    | some r =>
      cases hrest : openSeqEv rest with
      | error e => simp [openSeq, openSeqEv, hr, ih, hrest, emap_error]
      | ok evs =>
        simp [openSeq, openSeqEv, hr, ih, hrest, emap_ok, joinEv, eventStr,
          openMarkup, Except.map]

/-- The markup string emitted by `renderAnnotation` is the rendering of the
events recorded by its event-level counterpart, and both mutate the stack
identically. -/
theorem renderAnn_corr (bias : Bias) (a : Ann) (st : List Ann) :
    renderAnn bias a st =
      (renderAnnEv bias a st).map (fun p => (joinEv p.1, p.2)) := by
  cases hr : annotationRenderers a.type with
  | none => simp [renderAnn, renderAnnEv, hr, Except.map, joinEv]
  | some rule =>
    cases bias with
    | open_ =>
      simp [renderAnn, renderAnnEv, hr, Except.map, joinEv, eventStr, openMarkup,
        String.append_empty]
    | close =>
      by_cases htop : st.getLast? = some a
      · simp [renderAnn, renderAnnEv, hr, htop, Except.map, joinEv, eventStr,
          closeMarkup, String.append_empty]
      · cases hidx : inArrayIdx a st with
        | none => simp [renderAnn, renderAnnEv, hr, htop, hidx, Except.map]
        | some d =>
          cases h1 : closeSeqEv ((st.drop (d + 1)).reverse) with
          | error e =>
            have h1s : closeSeq ((st.drop (d + 1)).reverse) = .error e := by
              rw [closeSeq_corr, h1]; rfl
            simp [renderAnn, renderAnnEv, hr, htop, hidx, h1, h1s, Except.map,
              ebind_error]
          | ok e1 =>
            have h1s : closeSeq ((st.drop (d + 1)).reverse) = .ok (joinEv e1) := by
              rw [closeSeq_corr, h1]; rfl
            cases h2 : openSeqEv (st.drop (d + 1)) with
            | error e =>
              have h2s : openSeq (st.drop (d + 1)) = .error e := by
                rw [openSeq_corr, h2]; rfl
              simp [renderAnn, renderAnnEv, hr, htop, hidx, h1, h1s, h2, h2s,
                Except.map, ebind_ok, ebind_error]
            | ok e3 =>
              have h2s : openSeq (st.drop (d + 1)) = .ok (joinEv e3) := by
                rw [openSeq_corr, h2]; rfl
              simp [renderAnn, renderAnnEv, hr, htop, hidx, h1, h1s, h2, h2s,
                Except.map, ebind_ok, joinEv_append, joinEv, eventStr, closeMarkup,
                String.append_assoc, String.append_empty]

/-- Event correspondence for the unconditional close loop. -/
theorem closeList_corr (l : List Ann) : ∀ st : List Ann,
    closeList l st = (closeListEv l st).map (fun p => (joinEv p.1, p.2)) := by
  induction l with
  | nil => intro st; rfl
  | cons a rest ih =>
    intro st
    cases h1 : renderAnnEv .close a st with
    | error e =>
      have h1s : renderAnn .close a st = .error e := by rw [renderAnn_corr, h1]; rfl
      simp [closeList, closeListEv, h1, h1s, ebind_error, Except.map]
    | ok p1 =>
      have h1s : renderAnn .close a st = .ok (joinEv p1.1, p1.2) := by
        rw [renderAnn_corr, h1]; rfl
      cases h2 : closeListEv rest p1.2 with
      | error e =>
        have h2s : closeList rest p1.2 = .error e := by rw [ih, h2]; rfl
        simp [closeList, closeListEv, h1, h1s, h2, h2s, ebind_ok, ebind_error,
          Except.map]
      | ok p2 =>
        have h2s : closeList rest p1.2 = .ok (joinEv p2.1, p2.2) := by
          rw [ih, h2]; rfl
        simp [closeList, closeListEv, h1, h1s, h2, h2s, ebind_ok, Except.map,
          joinEv_append]

/-- Event correspondence for the unconditional open loop. -/
theorem openList_corr (l : List Ann) : ∀ st : List Ann,
    openList l st = (openListEv l st).map (fun p => (joinEv p.1, p.2)) := by
  induction l with
  | nil => intro st; rfl
  | cons a rest ih =>
    intro st
    cases h1 : renderAnnEv .open_ a st with
    | error e =>
      have h1s : renderAnn .open_ a st = .error e := by rw [renderAnn_corr, h1]; rfl
      simp [openList, openListEv, h1, h1s, ebind_error, Except.map]
    | ok p1 =>
      have h1s : renderAnn .open_ a st = .ok (joinEv p1.1, p1.2) := by
        rw [renderAnn_corr, h1]; rfl
      cases h2 : openListEv rest p1.2 with
      | error e =>
        have h2s : openList rest p1.2 = .error e := by rw [ih, h2]; rfl
        simp [openList, openListEv, h1, h1s, h2, h2s, ebind_ok, ebind_error,
          Except.map]
      | ok p2 =>
        have h2s : openList rest p1.2 = .ok (joinEv p2.1, p2.2) := by
          rw [ih, h2]; rfl
        simp [openList, openListEv, h1, h1s, h2, h2s, ebind_ok, Except.map,
          joinEv_append]

/-- Event correspondence for the membership-filtered close loop. -/
theorem closeListIn_corr (other : List Ann) (l : List Ann) : ∀ st : List Ann,
    closeListIn other l st =
      (closeListInEv other l st).map (fun p => (joinEv p.1, p.2)) := by
  induction l with
  | nil => intro st; rfl
  | cons a rest ih =>
    intro st
    by_cases hc : a ∈ other
    · simp [closeListIn, closeListInEv, hc, ih]
    · cases h1 : renderAnnEv .close a st with
      | error e =>
        have h1s : renderAnn .close a st = .error e := by
          rw [renderAnn_corr, h1]; rfl
        simp [closeListIn, closeListInEv, hc, h1, h1s, ebind_error, Except.map]
      | ok p1 =>
        have h1s : renderAnn .close a st = .ok (joinEv p1.1, p1.2) := by
          rw [renderAnn_corr, h1]; rfl
        cases h2 : closeListInEv other rest p1.2 with
        | error e =>
          have h2s : closeListIn other rest p1.2 = .error e := by rw [ih, h2]; rfl
          simp [closeListIn, closeListInEv, hc, h1, h1s, h2, h2s, ebind_ok,
            ebind_error, Except.map]
        | ok p2 =>
          have h2s : closeListIn other rest p1.2 = .ok (joinEv p2.1, p2.2) := by
            rw [ih, h2]; rfl
          simp [closeListIn, closeListInEv, hc, h1, h1s, h2, h2s, ebind_ok,
            Except.map, joinEv_append]

/-- Event correspondence for the membership-filtered open loop. -/
theorem openListIn_corr (other : List Ann) (l : List Ann) : ∀ st : List Ann,
    openListIn other l st =
      (openListInEv other l st).map (fun p => (joinEv p.1, p.2)) := by
  induction l with
  | nil => intro st; rfl
  | cons a rest ih =>
    intro st
    by_cases hc : a ∈ other
    · simp [openListIn, openListInEv, hc, ih]
    · cases h1 : renderAnnEv .open_ a st with
      | error e =>
        have h1s : renderAnn .open_ a st = .error e := by
          rw [renderAnn_corr, h1]; rfl
        simp [openListIn, openListInEv, hc, h1, h1s, ebind_error, Except.map]
      | ok p1 =>
        have h1s : renderAnn .open_ a st = .ok (joinEv p1.1, p1.2) := by
          rw [renderAnn_corr, h1]; rfl
        cases h2 : openListInEv other rest p1.2 with
        | error e =>
          have h2s : openListIn other rest p1.2 = .error e := by rw [ih, h2]; rfl
          simp [openListIn, openListInEv, hc, h1, h1s, h2, h2s, ebind_ok,
            ebind_error, Except.map]
        | ok p2 =>
          have h2s : openListIn other rest p1.2 = .ok (joinEv p2.1, p2.2) := by
            rw [ih, h2]; rfl
          simp [openListIn, openListInEv, hc, h1, h1s, h2, h2s, ebind_ok,
            Except.map, joinEv_append]

/-- Event correspondence for the transition of one consecutive pair. -/
theorem transition_corr (left right : ContentUnit) (st : List Ann) :
    transition left right st =
      (transitionEv left right st).map (fun p => (joinEv p.1, p.2)) := by
  cases left with
  | plain cl =>
    cases right with
    | plain cr => rfl
    | annotated cr rAnns => simp [transition, transitionEv, openList_corr]
  | annotated cl lAnns =>
    cases right with
    | plain cr => simp [transition, transitionEv, closeList_corr]
    | annotated cr rAnns =>
      cases h1 : closeListInEv rAnns lAnns st with
      | error e =>
        have h1s : closeListIn rAnns lAnns st = .error e := by
          rw [closeListIn_corr, h1]; rfl
        simp [transition, transitionEv, h1, h1s, ebind_error, Except.map]
      | ok p1 =>
        have h1s : closeListIn rAnns lAnns st = .ok (joinEv p1.1, p1.2) := by
          rw [closeListIn_corr, h1]; rfl
        cases h2 : openListInEv lAnns rAnns p1.2 with
        | error e =>
          have h2s : openListIn lAnns rAnns p1.2 = .error e := by
            rw [openListIn_corr, h2]; rfl
          simp [transition, transitionEv, h1, h1s, h2, h2s, ebind_ok, ebind_error,
            Except.map]
        | ok p2 =>
          have h2s : openListIn lAnns rAnns p1.2 = .ok (joinEv p2.1, p2.2) := by
            rw [openListIn_corr, h2]; rfl
          simp [transition, transitionEv, h1, h1s, h2, h2s, ebind_ok, Except.map,
            joinEv_append]

/-- Event correspondence for the whole render loop: the output string is the
rendering of the recorded events, and the final stacks agree. -/
theorem renderLoop_corr (data : List ContentUnit) :
    ∀ (left : ContentUnit) (st : List Ann),
    renderLoop left st data =
      (renderLoopEv left st data).map (fun p => (joinEv p.1, p.2)) := by
  induction data with
  | nil =>
    intro left st
    by_cases hp : left.isPlain
    · simp [renderLoop, renderLoopEv, hp, Except.map, joinEv]
    · simp [renderLoop, renderLoopEv, hp, closeList_corr]
  | cons r rest ih =>
    intro left st
    cases h1 : transitionEv left r st with
    | error e =>
      have h1s : transition left r st = .error e := by rw [transition_corr, h1]; rfl
      simp [renderLoop, renderLoopEv, h1, h1s, ebind_error, Except.map]
    | ok p1 =>
      have h1s : transition left r st = .ok (joinEv p1.1, p1.2) := by
        rw [transition_corr, h1]; rfl
      cases h2 : renderLoopEv r p1.2 rest with
      | error e =>
        have h2s : renderLoop r p1.2 rest = .error e := by rw [ih, h2]; rfl
        simp [renderLoop, renderLoopEv, h1, h1s, h2, h2s, ebind_ok, ebind_error,
          Except.map]
      | ok p2 =>
        have h2s : renderLoop r p1.2 rest = .ok (joinEv p2.1, p2.2) := by
          rw [ih, h2]; rfl
        simp [renderLoop, renderLoopEv, h1, h1s, h2, h2s, ebind_ok, Except.map,
          joinEv_append, joinEv, eventStr, String.append_assoc, String.append_empty]

/-- `getHtml` output is the rendering of the events of the event-level run. -/
theorem getHtml_events (range : Option VeRange) (data : List ContentUnit) :
    getHtml range data =
      (renderLoopEv (.plain "") [] data).map (fun p => joinEv p.1) := by
  cases h : renderLoopEv (.plain "") [] data with
  | error e =>
    have hs : renderLoop (.plain "") [] data = .error e := by
      rw [renderLoop_corr, h]; rfl
    simp [getHtml, hs, h, Except.map]
  | ok p =>
    have hs : renderLoop (.plain "") [] data = .ok (joinEv p.1, p.2) := by
      rw [renderLoop_corr, h]; rfl
    simp [getHtml, hs, h, Except.map]

/-- The nesting automaton processes concatenations sequentially. -/
theorem checkNested_append (l1 l2 : List REvent) : ∀ st : List Ann,
    checkNested st (l1 ++ l2) =
      (checkNested st l1).bind (fun s => checkNested s l2) := by
  induction l1 with
  | nil => intro st; rfl
  | cons e rest ih =>
    intro st
    cases e with
    | opened a => simp [checkNested, ih]
    | closed a =>
      by_cases h : st.getLast? = some a
      · simp [checkNested, h, ih]
      · simp [checkNested, h]
    | text s => simp [checkNested, ih]

/-- Closing a block of open tags from the innermost outward returns the
automaton to the state below the block. -/
theorem checkNested_closes (above : List Ann) : ∀ pre : List Ann,
    checkNested (pre ++ above) ((above.reverse).map REvent.closed) = some pre := by
  induction above with
  | nil => intro pre; simp [checkNested]
  | cons b rest ih =>
    intro pre
    have hsplit : pre ++ b :: rest = (pre ++ [b]) ++ rest := by simp
    rw [hsplit]
    simp only [List.reverse_cons, List.map_append, checkNested_append, ih]
    simp [checkNested, List.getLast?_concat, List.dropLast_concat]

/-- Opening a block of tags pushes them onto the automaton state in order. -/
theorem checkNested_opens (l : List Ann) : ∀ pre : List Ann,
    checkNested pre (l.map REvent.opened) = some (pre ++ l) := by
  induction l with
  | nil => intro pre; simp [checkNested]
  | cons a rest ih =>
    intro pre
    simp [checkNested, ih]

/-- A successful buried-close close loop records exactly the close events of
its list, in order. -/
theorem closeSeqEv_shape {l : List Ann} {evs : List REvent}
    (h : closeSeqEv l = .ok evs) : evs = l.map REvent.closed := by
  induction l generalizing evs with
  | nil => simp [closeSeqEv] at h; simp [h.symm]
  | cons a rest ih =>
    cases hr : annotationRenderers a.type with
    | none => simp [closeSeqEv, hr] at h
    | some r =>
      cases hrest : closeSeqEv rest with
      | error e => simp [closeSeqEv, hr, hrest, Except.map] at h
      | ok evs2 =>
        simp [closeSeqEv, hr, hrest, Except.map] at h
        simp [h.symm, ih hrest]

/-- A successful buried-close re-open loop records exactly the open events of
its list, in order. -/
theorem openSeqEv_shape {l : List Ann} {evs : List REvent}
    (h : openSeqEv l = .ok evs) : evs = l.map REvent.opened := by
  induction l generalizing evs with
  | nil => simp [openSeqEv] at h; simp [h.symm]
  | cons a rest ih =>
    cases hr : annotationRenderers a.type with
    | none => simp [openSeqEv, hr] at h
    | some r =>
      cases hrest : openSeqEv rest with
      | error e => simp [openSeqEv, hr, hrest, Except.map] at h
      | ok evs2 =>
        simp [openSeqEv, hr, hrest, Except.map] at h
        simp [h.symm, ih hrest]

/-- The automaton run of a full buried-close event block: close the covering
block innermost-to-outermost, close the target, re-open the covering block. -/
theorem checkNested_buried (pre above : List Ann) (a : Ann) :
    checkNested (pre ++ a :: above)
      ((above.reverse.map REvent.closed) ++
        REvent.closed a :: above.map REvent.opened) = some (pre ++ above) := by
  have h1 : pre ++ a :: above = (pre ++ [a]) ++ above := by simp
  rw [h1, checkNested_append, checkNested_closes, Option.some_bind]
  show checkNested (pre ++ [a]) (REvent.closed a :: above.map REvent.opened) =
    some (pre ++ above)
  rw [checkNested, if_pos (List.getLast?_concat pre), List.dropLast_concat,
    checkNested_opens]

/-- Every successful `renderAnnotation` call emits events the nesting
automaton accepts, taking its state from the entry stack to the exit stack:
the renderer's stack discipline and the automaton coincide. -/
theorem renderAnnEv_check {bias : Bias} {a : Ann} {st : List Ann}
    {evs : List REvent} {st2 : List Ann}
    (h : renderAnnEv bias a st = .ok (evs, st2)) :
    checkNested st evs = some st2 := by
  cases hr : annotationRenderers a.type with
  | none =>
    simp [renderAnnEv, hr] at h
    obtain ⟨h1, h2⟩ := h
    subst h1; subst h2
    rfl
  | some rule =>
    cases bias with
    | open_ =>
      simp [renderAnnEv, hr] at h
      obtain ⟨h1, h2⟩ := h
      subst h1; subst h2
      simp [checkNested]
    | close =>
      by_cases htop : st.getLast? = some a
      · simp [renderAnnEv, hr, htop] at h
        obtain ⟨h1, h2⟩ := h
        subst h1; subst h2
        simp [checkNested, htop]
      · cases hidx : inArrayIdx a st with
        | none => simp [renderAnnEv, hr, htop, hidx] at h
        | some d =>
          cases h1 : closeSeqEv ((st.drop (d + 1)).reverse) with
          | error e => simp [renderAnnEv, hr, htop, hidx, h1, ebind_error] at h
          | ok e1 =>
            cases h2 : openSeqEv (st.drop (d + 1)) with
            | error e =>
              simp [renderAnnEv, hr, htop, hidx, h1, h2, ebind_ok, ebind_error] at h
            | ok e3 =>
              simp [renderAnnEv, hr, htop, hidx, h1, h2, ebind_ok] at h
              obtain ⟨hevs, hst2⟩ := h
              subst hevs; subst hst2
              have he1 : e1 = ((st.drop (d + 1)).reverse).map REvent.closed :=
                closeSeqEv_shape h1
              have he3 : e3 = (st.drop (d + 1)).map REvent.opened :=
                openSeqEv_shape h2
              have hdec : st.take d ++ a :: st.drop (d + 1) = st :=
                inArrayIdx_decomp hidx
              have hb := checkNested_buried (st.take d) (st.drop (d + 1)) a
              rw [hdec] at hb
              rw [he1, he3]
              exact hb

/-- The automaton accepts the events of a successful unconditional close
loop. -/
theorem closeListEv_check (l : List Ann) : ∀ {st evs st2},
    closeListEv l st = .ok (evs, st2) → checkNested st evs = some st2 := by
  induction l with
  | nil =>
    intro st evs st2 h
    simp [closeListEv] at h
    obtain ⟨h1, h2⟩ := h
    subst h1; subst h2
    rfl
  | cons a rest ih =>
    intro st evs st2 h
    cases h1 : renderAnnEv .close a st with
    | error e => simp [closeListEv, h1, ebind_error] at h
    | ok p1 =>
      cases h2 : closeListEv rest p1.2 with
      | error e => simp [closeListEv, h1, h2, ebind_ok, ebind_error] at h
      | ok p2 =>
        simp [closeListEv, h1, h2, ebind_ok] at h
        obtain ⟨hevs, hst2⟩ := h
        subst hevs; subst hst2
        rw [checkNested_append, renderAnnEv_check h1, Option.some_bind]
        exact ih h2

/-- The automaton accepts the events of a successful unconditional open
loop. -/
theorem openListEv_check (l : List Ann) : ∀ {st evs st2},
    openListEv l st = .ok (evs, st2) → checkNested st evs = some st2 := by
  induction l with
  | nil =>
    intro st evs st2 h
    simp [openListEv] at h
    obtain ⟨h1, h2⟩ := h
    subst h1; subst h2
    rfl
  | cons a rest ih =>
    intro st evs st2 h
    cases h1 : renderAnnEv .open_ a st with
    | error e => simp [openListEv, h1, ebind_error] at h
    | ok p1 =>
      cases h2 : openListEv rest p1.2 with
      | error e => simp [openListEv, h1, h2, ebind_ok, ebind_error] at h
      | ok p2 =>
        simp [openListEv, h1, h2, ebind_ok] at h
        obtain ⟨hevs, hst2⟩ := h
        subst hevs; subst hst2
        rw [checkNested_append, renderAnnEv_check h1, Option.some_bind]
        exact ih h2

/-- The automaton accepts the events of a successful filtered close loop. -/
theorem closeListInEv_check (other : List Ann) (l : List Ann) : ∀ {st evs st2},
    closeListInEv other l st = .ok (evs, st2) → checkNested st evs = some st2 := by
  induction l with
  | nil =>
    intro st evs st2 h
    simp [closeListInEv] at h
    obtain ⟨h1, h2⟩ := h
    subst h1; subst h2
    rfl
  | cons a rest ih =>
    intro st evs st2 h
    by_cases hc : other.contains a
    · rw [closeListInEv, if_pos hc] at h
      exact ih h
    · rw [closeListInEv, if_neg hc] at h
      cases h1 : renderAnnEv .close a st with
      | error e => rw [h1, ebind_error] at h; exact absurd h (by simp)
      | ok p1 =>
        cases h2 : closeListInEv other rest p1.2 with
        | error e =>
          rw [h1, ebind_ok, h2, ebind_error] at h
          exact absurd h (by simp)
        | ok p2 =>
          rw [h1, ebind_ok, h2, ebind_ok] at h
          simp at h
          obtain ⟨hevs, hst2⟩ := h
          subst hevs; subst hst2
          rw [checkNested_append, renderAnnEv_check h1, Option.some_bind]
          exact ih h2

/-- The automaton accepts the events of a successful filtered open loop. -/
theorem openListInEv_check (other : List Ann) (l : List Ann) : ∀ {st evs st2},
    openListInEv other l st = .ok (evs, st2) → checkNested st evs = some st2 := by
  induction l with
  | nil =>
    intro st evs st2 h
    simp [openListInEv] at h
    obtain ⟨h1, h2⟩ := h
    subst h1; subst h2
    rfl
  | cons a rest ih =>
    intro st evs st2 h
    by_cases hc : other.contains a
    · rw [openListInEv, if_pos hc] at h
      exact ih h
    · rw [openListInEv, if_neg hc] at h
      cases h1 : renderAnnEv .open_ a st with
      | error e => rw [h1, ebind_error] at h; exact absurd h (by simp)
      | ok p1 =>
        cases h2 : openListInEv other rest p1.2 with
        | error e =>
          rw [h1, ebind_ok, h2, ebind_error] at h
          exact absurd h (by simp)
        | ok p2 =>
          rw [h1, ebind_ok, h2, ebind_ok] at h
          simp at h
          obtain ⟨hevs, hst2⟩ := h
          subst hevs; subst hst2
          rw [checkNested_append, renderAnnEv_check h1, Option.some_bind]
          exact ih h2

/-- The automaton accepts the events of a successful pair transition. -/
theorem transitionEv_check {left right : ContentUnit} : ∀ {st evs st2},
    transitionEv left right st = .ok (evs, st2) → checkNested st evs = some st2 := by
  intro st evs st2 h
  cases left with
  | plain cl =>
    cases right with
    | plain cr =>
      simp [transitionEv] at h
      obtain ⟨h1, h2⟩ := h
      subst h1; subst h2
      rfl
    | annotated cr rAnns => exact openListEv_check rAnns h
  | annotated cl lAnns =>
    cases right with
    | plain cr => exact closeListEv_check lAnns h
    | annotated cr rAnns =>
      cases h1 : closeListInEv rAnns lAnns st with
      | error e => simp [transitionEv, h1, ebind_error] at h
      | ok p1 =>
        cases h2 : openListInEv lAnns rAnns p1.2 with
        | error e => simp [transitionEv, h1, h2, ebind_ok, ebind_error] at h
        | ok p2 =>
          simp [transitionEv, h1, h2, ebind_ok] at h
          obtain ⟨hevs, hst2⟩ := h
          subst hevs; subst hst2
          rw [checkNested_append, closeListInEv_check rAnns lAnns h1,
            Option.some_bind]
          exact openListInEv_check lAnns rAnns h2

/-- The automaton accepts the events of every successful render pass, ending
in the pass's final stack: however the input overlaps, the emitted tags are
properly nested around the text with respect to the renderer's own stack. -/
theorem renderLoopEv_check (data : List ContentUnit) :
    ∀ {left : ContentUnit} {st evs st2},
    renderLoopEv left st data = .ok (evs, st2) → checkNested st evs = some st2 := by
  induction data with
  | nil =>
    intro left st evs st2 h
    by_cases hp : left.isPlain
    · rw [renderLoopEv, if_pos hp] at h
      simp at h
      obtain ⟨h1, h2⟩ := h
      subst h1; subst h2
      rfl
    · rw [renderLoopEv, if_neg hp] at h
      exact closeListEv_check left.anns h
  | cons r rest ih =>
    intro left st evs st2 h
    cases h1 : transitionEv left r st with
    | error e => simp [renderLoopEv, h1, ebind_error] at h
    | ok p1 =>
      cases h2 : renderLoopEv r p1.2 rest with
      | error e => simp [renderLoopEv, h1, h2, ebind_ok, ebind_error] at h
      | ok p2 =>
        simp [renderLoopEv, h1, h2, ebind_ok] at h
        obtain ⟨hevs, hst2⟩ := h
        subst hevs; subst hst2
        rw [checkNested_append, transitionEv_check h1, Option.some_bind,
          checkNested]
        exact ih h2

/-- Along an accepted automaton run, the per-instance difference between open
and close events equals the change in the instance's multiplicity in the
automaton state. -/
theorem checkNested_count (evs : List REvent) : ∀ {st st2 : List Ann},
    checkNested st evs = some st2 → ∀ a : Ann,
    st.count a + evs.count (REvent.opened a) =
      st2.count a + evs.count (REvent.closed a) := by
  induction evs with
  | nil =>
    intro st st2 h a
    simp [checkNested] at h
    subst h
    simp
  | cons e rest ih =>
    intro st st2 h a
    cases e with
    | opened b =>
      rw [checkNested] at h
      have := ih h a
      by_cases hab : b = a
      · subst hab
        simp [List.count_cons, List.count_append] at this ⊢
        omega
      · have hne1 : (REvent.opened b == REvent.opened a) = false := by
          simp [hab]
        have hne2 : (REvent.opened b == REvent.closed a) = false := by simp
        simp [List.count_cons, List.count_append, hne1, hne2, hab] at this ⊢
        omega
    | closed b =>
      rw [checkNested] at h
      by_cases htop : st.getLast? = some b
      · rw [if_pos htop] at h
        have := ih h a
        have hsplit : st = st.dropLast ++ [b] := by
          have hne : st ≠ [] := by
            intro hnil
            rw [hnil] at htop
            simp [List.getLast?] at htop
          conv_lhs => rw [← List.dropLast_append_getLast hne]
          rw [List.getLast?_eq_getLast st hne] at htop
          simp at htop
          rw [htop]
        by_cases hab : b = a
        · subst hab
          conv_lhs => rw [hsplit]
          simp [List.count_cons, List.count_append] at this ⊢
          omega
        · have hne1 : (REvent.closed b == REvent.opened a) = false := by simp
          have hne2 : (REvent.closed b == REvent.closed a) = false := by
            simp [hab]
          conv_lhs => rw [hsplit]
          simp [List.count_cons, List.count_append, hne1, hne2, hab] at this ⊢
          omega
      · rw [if_neg htop] at h
        exact absurd h (by simp)
    | text s =>
      rw [checkNested] at h
      have := ih h a
      simp [List.count_cons] at this ⊢
      omega

/-- A list whose last element is known splits as its front plus that
element. -/
theorem getLast?_split {st : List Ann} {a : Ann} (h : st.getLast? = some a) :
    st = st.dropLast ++ [a] := by
  have hne : st ≠ [] := by
    intro hnil
    rw [hnil] at h
    simp [List.getLast?] at h
  conv_lhs => rw [← List.dropLast_append_getLast hne]
  rw [List.getLast?_eq_getLast st hne] at h
  simp at h
  rw [h]

/-- On a duplicate-free stack, popping the top element
(`stack.pop()`) is erasing it. -/
theorem dropLast_eq_erase {st : List Ann} {a : Ann} (hnd : st.Nodup)
    (h : st.getLast? = some a) : st.dropLast = st.erase a := by
  have hsplit := getLast?_split h
  have hnd2 : (st.dropLast ++ [a]).Nodup := by rw [← hsplit]; exact hnd
  rw [List.nodup_append] at hnd2
  have hnotmem : a ∉ st.dropLast := fun hmem => hnd2.2.2 hmem (by simp)
  conv_rhs => rw [hsplit]
  rw [List.erase_append_right _ hnotmem]
  simp

/-- A close request for a registered annotation present on a duplicate-free,
all-registered stack succeeds and removes exactly that annotation from the
stack, whether it is on top (pop) or buried (splice). -/
theorem renderAnn_close_erase {a : Ann} {st : List Ann}
    (hreg : isReg a = true) (hall : ∀ b ∈ st, isReg b = true)
    (hmem : a ∈ st) (hnd : st.Nodup) :
    ∃ out, renderAnn .close a st = .ok (out, st.erase a) := by
  obtain ⟨rule, hrule⟩ := Option.isSome_iff_exists.mp hreg
  by_cases htop : st.getLast? = some a
  · refine ⟨rule.close.resolve a.data, ?_⟩
    simp [renderAnn, hrule, htop, dropLast_eq_erase hnd htop]
  · obtain ⟨d, hd⟩ := inArrayIdx_exists_of_mem hmem
    have hdrop : ∀ b ∈ st.drop (d + 1), isReg b = true :=
      fun b hb => hall b (List.drop_subset _ _ hb)
    have hrev : ∀ b ∈ (st.drop (d + 1)).reverse, isReg b = true := by
      simpa using hdrop
    have hc := closeSeq_of_reg hrev
    have ho := openSeq_of_reg hdrop
    refine ⟨joinEv (((st.drop (d + 1)).reverse).map REvent.closed) ++
      rule.close.resolve a.data ++ joinEv ((st.drop (d + 1)).map REvent.opened), ?_⟩
    simp [renderAnn, hrule, htop, hd, hc, ho, ebind_ok, inArrayIdx_splice hd]

/-- An unregistered annotation makes `renderAnnotation` a silent no-op for
either bias: no markup, no stack change. -/
theorem renderAnn_unreg {a : Ann} (h : annotationRenderers a.type = none)
    (bias : Bias) (st : List Ann) : renderAnn bias a st = .ok ("", st) := by
  simp [renderAnn, h]

/-- Closing, in any order, a duplicate-free list of annotations that matches
the stack contents (up to registration) drains the stack completely. -/
theorem closeList_drain : ∀ (anns st : List Ann), anns.Nodup → st.Nodup →
    (∀ x ∈ st, x ∈ anns ∧ isReg x = true) →
    (∀ x ∈ anns, isReg x = true → x ∈ st) →
    ∃ out, closeList anns st = .ok (out, []) := by
  intro anns
  induction anns with
  | nil =>
    intro st _ _ h1 _
    have hempty : st = [] := List.eq_nil_iff_forall_not_mem.mpr
      (fun x hx => absurd (h1 x hx).1 (List.not_mem_nil x))
    subst hempty
    exact ⟨"", rfl⟩
  | cons a rest ih =>
    intro st hndAnns hndSt h1 h2
    by_cases hra : isReg a = true
    · have hmem : a ∈ st := h2 a (by simp) hra
      have hall : ∀ b ∈ st, isReg b = true := fun b hb => (h1 b hb).2
      obtain ⟨out1, hout1⟩ := renderAnn_close_erase hra hall hmem hndSt
      have h1' : ∀ x ∈ st.erase a, x ∈ rest ∧ isReg x = true := by
        intro x hx
        have hxne := (List.Nodup.mem_erase_iff hndSt).mp hx
        rcases h1 x hxne.2 with ⟨hxmem, hxreg⟩
        rcases List.mem_cons.mp hxmem with he | ht
        · exact absurd he hxne.1
        · exact ⟨ht, hxreg⟩
      have h2' : ∀ x ∈ rest, isReg x = true → x ∈ st.erase a := by
        intro x hx hregx
        have hxa : x ≠ a := by
          intro he
          subst he
          exact (List.nodup_cons.mp hndAnns).1 hx
        rw [List.mem_erase_of_ne hxa]
        exact h2 x (by simp [hx]) hregx
      obtain ⟨out2, hout2⟩ :=
        ih (st.erase a) (List.nodup_cons.mp hndAnns).2 (hndSt.erase a) h1' h2'
      exact ⟨out1 ++ out2, by simp [closeList, hout1, hout2, ebind_ok]⟩
    · have hnone : annotationRenderers a.type = none :=
        Option.not_isSome_iff_eq_none.mp (by simpa [isReg] using hra)
      have hskip := renderAnn_unreg hnone .close st
      have h1' : ∀ x ∈ st, x ∈ rest ∧ isReg x = true := by
        intro x hx
        rcases h1 x hx with ⟨hxmem, hxreg⟩
        rcases List.mem_cons.mp hxmem with he | ht
        · subst he; exact absurd hxreg hra
        · exact ⟨ht, hxreg⟩
      have h2' : ∀ x ∈ rest, isReg x = true → x ∈ st :=
        fun x hx hr => h2 x (by simp [hx]) hr
      obtain ⟨out2, hout2⟩ := ih st (List.nodup_cons.mp hndAnns).2 hndSt h1' h2'
      exact ⟨"" ++ out2, by simp [closeList, hskip, hout2, ebind_ok]⟩

/-- Effect of an unconditional close loop on a well-formed stack: it removes
exactly the registered annotations of its list and keeps the rest, while
preserving duplicate-freedom and all-registered contents. -/
theorem closeList_effect : ∀ (l st : List Ann), l.Nodup → st.Nodup →
    (∀ b ∈ st, isReg b = true) →
    (∀ x ∈ l, isReg x = true → x ∈ st) →
    ∃ out st2, closeList l st = .ok (out, st2) ∧ st2.Nodup ∧
      (∀ b ∈ st2, isReg b = true) ∧
      (∀ x, x ∈ st2 ↔ x ∈ st ∧ ¬(x ∈ l ∧ isReg x = true)) := by
  intro l
  induction l with
  | nil =>
    intro st _ hndSt hall _
    exact ⟨"", st, rfl, hndSt, hall, by simp⟩
  | cons a rest ih =>
    intro st hndL hndSt hall hsub
    by_cases hra : isReg a = true
    · have hmem : a ∈ st := hsub a (by simp) hra
      obtain ⟨out1, hout1⟩ := renderAnn_close_erase hra hall hmem hndSt
      have hall' : ∀ b ∈ st.erase a, isReg b = true :=
        fun b hb => hall b (List.erase_subset _ _ hb)
      have hsub' : ∀ x ∈ rest, isReg x = true → x ∈ st.erase a := by
        intro x hx hregx
        have hxa : x ≠ a := by
          intro he
          subst he
          exact (List.nodup_cons.mp hndL).1 hx
        rw [List.mem_erase_of_ne hxa]
        exact hsub x (by simp [hx]) hregx
      obtain ⟨out2, st2, heq, hnd2, hall2, hmem2⟩ :=
        ih (st.erase a) (List.nodup_cons.mp hndL).2 (hndSt.erase a) hall' hsub'
      refine ⟨out1 ++ out2, st2, by simp [closeList, hout1, heq, ebind_ok],
        hnd2, hall2, ?_⟩
      intro x
      rw [hmem2 x, List.Nodup.mem_erase_iff hndSt]
      simp only [List.mem_cons]
      constructor
      · rintro ⟨⟨hne, hst⟩, hnot⟩
        refine ⟨hst, ?_⟩
        rintro ⟨he | hr, hregx⟩
        · exact hne he
        · exact hnot ⟨hr, hregx⟩
      · rintro ⟨hst, hnot⟩
        refine ⟨⟨?_, hst⟩, ?_⟩
        · intro he
          exact hnot ⟨Or.inl he, by rw [he]; exact hra⟩
        · rintro ⟨hr, hregx⟩
          exact hnot ⟨Or.inr hr, hregx⟩
    · have hnone : annotationRenderers a.type = none :=
        Option.not_isSome_iff_eq_none.mp (by simpa [isReg] using hra)
      have hskip := renderAnn_unreg hnone .close st
      have hsub' : ∀ x ∈ rest, isReg x = true → x ∈ st :=
        fun x hx hr => hsub x (by simp [hx]) hr
      obtain ⟨out2, st2, heq, hnd2, hall2, hmem2⟩ :=
        ih st (List.nodup_cons.mp hndL).2 hndSt hall hsub'
      refine ⟨"" ++ out2, st2, by simp [closeList, hskip, heq, ebind_ok],
        hnd2, hall2, ?_⟩
      intro x
      rw [hmem2 x]
      simp only [List.mem_cons]
      constructor
      · rintro ⟨hst, hnot⟩
        refine ⟨hst, ?_⟩
        rintro ⟨he | hr, hregx⟩
        · rw [he] at hregx
          exact hra hregx
        · exact hnot ⟨hr, hregx⟩
      · rintro ⟨hst, hnot⟩
        refine ⟨hst, ?_⟩
        rintro ⟨hr, hregx⟩
        exact hnot ⟨Or.inr hr, hregx⟩

/-- Effect of an unconditional open loop: it appends exactly the registered
annotations of its list, in order, to the stack, and never fails. -/
theorem openList_effect : ∀ (l st : List Ann),
    ∃ out, openList l st = .ok (out, st ++ l.filter isReg) := by
  intro l
  induction l with
  | nil => intro st; exact ⟨"", by simp [openList]⟩
  | cons a rest ih =>
    intro st
    by_cases hra : isReg a = true
    · obtain ⟨rule, hrule⟩ := Option.isSome_iff_exists.mp hra
      obtain ⟨out2, hout2⟩ := ih (st ++ [a])
      refine ⟨rule.open_.resolve a.data ++ out2, ?_⟩
      simp [openList, renderAnn, hrule, hout2, ebind_ok, List.filter_cons, hra]
    · have hnone : annotationRenderers a.type = none :=
        Option.not_isSome_iff_eq_none.mp (by simpa [isReg] using hra)
      obtain ⟨out2, hout2⟩ := ih st
      refine ⟨"" ++ out2, ?_⟩
      simp [openList, renderAnn, hnone, hout2, ebind_ok, List.filter_cons, hra]

/-- Filtering by non-membership in the empty list keeps everything. -/
theorem filter_not_contains_nil (l : List Ann) :
    l.filter (fun a => !(List.contains ([] : List Ann) a)) = l :=
  List.filter_true l

/-- The conditional close loop of the formatted-to-formatted case is the
unconditional close loop over the pre-filtered list. -/
theorem closeListIn_eq (other : List Ann) : ∀ (l st : List Ann),
    closeListIn other l st =
      closeList (l.filter (fun a => !(other.contains a))) st := by
  intro l
  induction l with
  | nil => intro st; rfl
  | cons a rest ih =>
    intro st
    by_cases hc : other.contains a
    · simp only [closeListIn, if_pos hc, List.filter_cons, hc, Bool.not_true,
        ite_false]
      exact ih st
    · simp only [closeListIn, if_neg hc]
      rw [Bool.not_eq_true] at hc
      simp only [List.filter_cons, hc, Bool.not_false, ite_true, closeList]
      cases h1 : renderAnn .close a st with
      | error e => rw [ebind_error, ebind_error]
      | ok p1 => rw [ebind_ok, ebind_ok, ih p1.2]

/-- The conditional open loop of the formatted-to-formatted case is the
unconditional open loop over the pre-filtered list. -/
theorem openListIn_eq (other : List Ann) : ∀ (l st : List Ann),
    openListIn other l st =
      openList (l.filter (fun a => !(other.contains a))) st := by
  intro l
  induction l with
  | nil => intro st; rfl
  | cons a rest ih =>
    intro st
    by_cases hc : other.contains a
    · simp only [openListIn, if_pos hc, List.filter_cons, hc, Bool.not_true,
        ite_false]
      exact ih st
    · simp only [openListIn, if_neg hc]
      rw [Bool.not_eq_true] at hc
      simp only [List.filter_cons, hc, Bool.not_false, ite_true, openList]
      cases h1 : renderAnn .open_ a st with
      | error e => rw [ebind_error, ebind_error]
      | ok p1 => rw [ebind_ok, ebind_ok, ih p1.2]

/-- The four plain/formatted branches of the `getHtml` loop body implement
the symmetric-difference description: close the previous unit's annotations
absent from the current unit in listed order, then open the current unit's
annotations absent from the previous unit in listed order, a plain unit
counting as the empty set; annotations present on both sides get neither a
close nor an open request. -/
theorem transition_eq_spec (left right : ContentUnit) (st : List Ann) :
    transition left right st = transitionSpec left right st := by
  cases left with
  | plain cl =>
    cases right with
    | plain cr =>
      simp [transition, transitionSpec, ContentUnit.anns, closeList, openList,
        ebind_ok]
    | annotated cr rAnns =>
      simp only [transition, transitionSpec, ContentUnit.anns, List.filter_nil,
        closeList, ebind_ok, filter_not_contains_nil]
      cases h : openList rAnns st with
      | error e => rw [ebind_error]
      | ok p =>
        rw [ebind_ok]
        simp [String.empty_append]
  | annotated cl lAnns =>
    cases right with
    | plain cr =>
      simp only [transition, transitionSpec, ContentUnit.anns, List.filter_nil,
        filter_not_contains_nil]
      cases h : closeList lAnns st with
      | error e => rw [ebind_error]
      | ok p =>
        rw [ebind_ok]
        simp [openList, ebind_ok, String.append_empty]
    | annotated cr rAnns =>
      simp only [transition, transitionSpec, ContentUnit.anns,
        closeListIn_eq, openListIn_eq]

/-- One transition preserves the render-pass stack invariant: afterwards the
stack holds exactly the registered annotations of the current unit (as a
duplicate-free set), provided the units' annotation lists are
duplicate-free. -/
theorem transition_inv {left right : ContentUnit} {st : List Ann} {s : String}
    {st2 : List Ann}
    (hndL : left.anns.Nodup) (hndR : right.anns.Nodup) (hndSt : st.Nodup)
    (hmemSt : ∀ x ∈ st, x ∈ left.anns ∧ isReg x = true)
    (hsub : ∀ x ∈ left.anns, isReg x = true → x ∈ st)
    (heq : transition left right st = .ok (s, st2)) :
    st2.Nodup ∧ (∀ x ∈ st2, x ∈ right.anns ∧ isReg x = true) ∧
      (∀ x ∈ right.anns, isReg x = true → x ∈ st2) := by
  rw [transition_eq_spec] at heq
  have hndLf : (left.anns.filter (fun a => !(right.anns.contains a))).Nodup :=
    hndL.filter _
  have hall : ∀ b ∈ st, isReg b = true := fun b hb => (hmemSt b hb).2
  have hsubLf : ∀ x ∈ left.anns.filter (fun a => !(right.anns.contains a)),
      isReg x = true → x ∈ st :=
    fun x hx hr => hsub x (List.mem_of_mem_filter hx) hr
  obtain ⟨out1, stC, hC, hndC, hallC, hmemC⟩ :=
    closeList_effect (left.anns.filter (fun a => !(right.anns.contains a))) st
      hndLf hndSt hall hsubLf
  obtain ⟨out2, hO⟩ :=
    openList_effect (right.anns.filter (fun a => !(left.anns.contains a))) stC
  rw [transitionSpec, hC, ebind_ok, hO, ebind_ok] at heq
  have hst2 : st2 =
      stC ++ (right.anns.filter (fun a => !(left.anns.contains a))).filter isReg := by
    rw [Except.ok.injEq, Prod.mk.injEq] at heq
    exact heq.2.symm
  subst hst2
  refine ⟨?_, ?_, ?_⟩
  · refine List.Nodup.append hndC ((hndR.filter _).filter _) ?_
    intro x hx1 hx2
    have hxL : x ∈ left.anns := (hmemC x |>.mp hx1).1 |> (fun hst => (hmemSt x hst).1)
    have hxNotL : x ∉ left.anns := by
      have hx2' := List.mem_of_mem_filter hx2
      have := List.mem_filter.mp hx2'
      simpa using this.2
    exact hxNotL hxL
  · intro x hx
    rcases List.mem_append.mp hx with hx1 | hx2
    · rcases hmemC x |>.mp hx1 with ⟨hxSt, hnot⟩
      rcases hmemSt x hxSt with ⟨hxL, hxReg⟩
      refine ⟨?_, hxReg⟩
      by_contra hxNotR
      exact hnot ⟨List.mem_filter.mpr ⟨hxL, by simpa using hxNotR⟩, hxReg⟩
    · have hxReg : isReg x = true := (List.mem_filter.mp hx2).2
      have hxR : x ∈ right.anns :=
        (List.mem_filter.mp (List.mem_of_mem_filter hx2)).1
      exact ⟨hxR, hxReg⟩
  · intro x hxR hxReg
    by_cases hxL : x ∈ left.anns
    · have hxSt : x ∈ st := hsub x hxL hxReg
      have hxNotLf : ¬(x ∈ left.anns.filter (fun a => !(right.anns.contains a)) ∧
          isReg x = true) := by
        rintro ⟨hxLf, _⟩
        have := List.mem_filter.mp hxLf
        simp [hxR] at this
      exact List.mem_append.mpr (Or.inl ((hmemC x).mpr ⟨hxSt, hxNotLf⟩))
    · refine List.mem_append.mpr (Or.inr ?_)
      refine List.mem_filter.mpr ⟨?_, hxReg⟩
      exact List.mem_filter.mpr ⟨hxR, by simpa using hxL⟩

/-- The render loop maintains the stack invariant and, on success, ends with
an empty stack: every annotation pushed has been closed by the time the pass
returns. -/
theorem renderLoop_inv : ∀ (data : List ContentUnit) (left : ContentUnit)
    (st : List Ann) (out : String) (stF : List Ann),
    (∀ u ∈ data, u.anns.Nodup) → left.anns.Nodup → st.Nodup →
    (∀ x ∈ st, x ∈ left.anns ∧ isReg x = true) →
    (∀ x ∈ left.anns, isReg x = true → x ∈ st) →
    renderLoop left st data = .ok (out, stF) → stF = [] := by
  intro data
  induction data with
  | nil =>
    intro left st out stF _ hndL hndSt hmem hsub h
    by_cases hp : left.isPlain
    · rw [renderLoop, if_pos hp] at h
      have hempty : st = [] := by
        cases left with
        | plain s =>
          refine List.eq_nil_iff_forall_not_mem.mpr (fun x hx => ?_)
          have hxm := (hmem x hx).1
          simp [ContentUnit.anns] at hxm
        | annotated s l => simp [ContentUnit.isPlain] at hp
      simp at h
      rw [← h.2, hempty]
    · rw [renderLoop, if_neg hp] at h
      obtain ⟨out2, hout2⟩ := closeList_drain left.anns st hndL hndSt hmem hsub
      rw [hout2] at h
      simp at h
      exact h.2
  | cons r rest ih =>
    intro left st out stF hndData hndL hndSt hmem hsub h
    cases h1 : transition left r st with
    | error e =>
      rw [renderLoop, h1, ebind_error] at h
      exact absurd h (by simp)
    | ok p1 =>
      have h1' : transition left r st = .ok (p1.1, p1.2) := by rw [h1]
      have hinv := transition_inv hndL (hndData r (by simp)) hndSt hmem hsub h1'
      cases h2 : renderLoop r p1.2 rest with
      | error e =>
        rw [renderLoop, h1, ebind_ok, h2, ebind_error] at h
        exact absurd h (by simp)
      | ok p2 =>
        rw [renderLoop, h1, ebind_ok, h2, ebind_ok] at h
        have hstF : stF = p2.2 := by
          simp at h
          exact h.2.symm
        subst hstF
        exact ih r p1.2 p2.1 p2.2 (fun u hu => hndData u (by simp [hu]))
          (hndData r (by simp)) hinv.1 hinv.2.1 hinv.2.2 h2

/-- A stack all of whose annotations have registered types. -/
def RegStack (st : List Ann) : Prop := ∀ b ∈ st, isReg b = true

/-- On a stack of registered annotations, `renderAnnotation` either succeeds
— leaving only registered annotations on the stack, since a push happens
only inside the registry guard — or fails with the invalid-stack error; the
unguarded registry lookups of the buried-close path can never miss. -/
theorem renderAnn_ok_or_stackError (bias : Bias) (a : Ann) {st : List Ann}
    (hall : RegStack st) :
    (∃ s st2, renderAnn bias a st = .ok (s, st2) ∧ RegStack st2) ∨
      renderAnn bias a st = .error .stackError := by
  cases hr : annotationRenderers a.type with
  | none => exact Or.inl ⟨"", st, renderAnn_unreg hr bias st, hall⟩
  | some rule =>
    cases bias with
    | open_ =>
      refine Or.inl ⟨rule.open_.resolve a.data, st ++ [a], by simp [renderAnn, hr], ?_⟩
      intro b hb
      rcases List.mem_append.mp hb with h1 | h2
      · exact hall b h1
      · simp at h2
        subst h2
        simp [isReg, hr]
    | close =>
      by_cases htop : st.getLast? = some a
      · refine Or.inl ⟨rule.close.resolve a.data, st.dropLast,
          by simp [renderAnn, hr, htop], ?_⟩
        exact fun b hb => hall b (List.dropLast_subset st hb)
      · cases hidx : inArrayIdx a st with
        | none => exact Or.inr (by simp [renderAnn, hr, htop, hidx])
        | some d =>
          have hdrop : ∀ b ∈ st.drop (d + 1), isReg b = true :=
            fun b hb => hall b (List.drop_subset _ _ hb)
          have hrev : ∀ b ∈ (st.drop (d + 1)).reverse, isReg b = true :=
            fun b hb => hdrop b (List.mem_reverse.mp hb)
          refine Or.inl ⟨joinEv (((st.drop (d + 1)).reverse).map REvent.closed) ++
            rule.close.resolve a.data ++
            joinEv ((st.drop (d + 1)).map REvent.opened),
            st.take d ++ st.drop (d + 1),
            by simp [renderAnn, hr, htop, hidx, closeSeq_of_reg hrev,
              openSeq_of_reg hdrop, ebind_ok], ?_⟩
          intro b hb
          rcases List.mem_append.mp hb with h1 | h2
          · exact hall b (List.take_subset _ _ h1)
          · exact hall b (List.drop_subset _ _ h2)

/-- The unconditional close loop never raises the registry TypeError on a
registered stack. -/
theorem closeList_ok_or_stackError : ∀ (l st : List Ann), RegStack st →
    (∃ p : String × List Ann, closeList l st = .ok p ∧ RegStack p.2) ∨
      closeList l st = .error .stackError := by
  intro l
  induction l with
  | nil => intro st hall; exact Or.inl ⟨("", st), rfl, hall⟩
  | cons a rest ih =>
    intro st hall
    rcases renderAnn_ok_or_stackError .close a hall with ⟨s, st2, heq, hall2⟩ | herr
    · rcases ih st2 hall2 with ⟨p2, heq2, hall3⟩ | herr2
      · exact Or.inl ⟨(s ++ p2.1, p2.2),
          by simp [closeList, heq, heq2, ebind_ok], hall3⟩
      · exact Or.inr (by simp [closeList, heq, herr2, ebind_ok, ebind_error])
    · exact Or.inr (by simp [closeList, herr, ebind_error])

/-- The unconditional open loop never raises the registry TypeError on a
registered stack. -/
theorem openList_ok_or_stackError : ∀ (l st : List Ann), RegStack st →
    (∃ p : String × List Ann, openList l st = .ok p ∧ RegStack p.2) ∨
      openList l st = .error .stackError := by
  intro l
  induction l with
  | nil => intro st hall; exact Or.inl ⟨("", st), rfl, hall⟩
  | cons a rest ih =>
    intro st hall
    rcases renderAnn_ok_or_stackError .open_ a hall with ⟨s, st2, heq, hall2⟩ | herr
    · rcases ih st2 hall2 with ⟨p2, heq2, hall3⟩ | herr2
      · exact Or.inl ⟨(s ++ p2.1, p2.2),
          by simp [openList, heq, heq2, ebind_ok], hall3⟩
      · exact Or.inr (by simp [openList, heq, herr2, ebind_ok, ebind_error])
    · exact Or.inr (by simp [openList, herr, ebind_error])

/-- The filtered close loop never raises the registry TypeError on a
registered stack. -/
theorem closeListIn_ok_or_stackError (other : List Ann) :
    ∀ (l st : List Ann), RegStack st →
    (∃ p : String × List Ann, closeListIn other l st = .ok p ∧ RegStack p.2) ∨
      closeListIn other l st = .error .stackError := by
  intro l
  induction l with
  | nil => intro st hall; exact Or.inl ⟨("", st), rfl, hall⟩
  | cons a rest ih =>
    intro st hall
    by_cases hc : other.contains a
    · rcases ih st hall with ⟨p2, heq2, hall3⟩ | herr2
      · exact Or.inl ⟨p2, by rw [closeListIn, if_pos hc]; exact heq2, hall3⟩
      · exact Or.inr (by rw [closeListIn, if_pos hc]; exact herr2)
    · rcases renderAnn_ok_or_stackError .close a hall with ⟨s, st2, heq, hall2⟩ | herr
      · rcases ih st2 hall2 with ⟨p2, heq2, hall3⟩ | herr2
        · exact Or.inl ⟨(s ++ p2.1, p2.2),
            by rw [closeListIn, if_neg hc]; simp [heq, heq2, ebind_ok], hall3⟩
        · exact Or.inr
            (by rw [closeListIn, if_neg hc]; simp [heq, herr2, ebind_ok, ebind_error])
      · exact Or.inr (by rw [closeListIn, if_neg hc]; simp [herr, ebind_error])

/-- The filtered open loop never raises the registry TypeError on a
registered stack. -/
theorem openListIn_ok_or_stackError (other : List Ann) :
    ∀ (l st : List Ann), RegStack st →
    (∃ p : String × List Ann, openListIn other l st = .ok p ∧ RegStack p.2) ∨
      openListIn other l st = .error .stackError := by
  intro l
  induction l with
  | nil => intro st hall; exact Or.inl ⟨("", st), rfl, hall⟩
  | cons a rest ih =>
    intro st hall
    by_cases hc : other.contains a
    · rcases ih st hall with ⟨p2, heq2, hall3⟩ | herr2
      · exact Or.inl ⟨p2, by rw [openListIn, if_pos hc]; exact heq2, hall3⟩
      · exact Or.inr (by rw [openListIn, if_pos hc]; exact herr2)
    · rcases renderAnn_ok_or_stackError .open_ a hall with ⟨s, st2, heq, hall2⟩ | herr
      · rcases ih st2 hall2 with ⟨p2, heq2, hall3⟩ | herr2
        · exact Or.inl ⟨(s ++ p2.1, p2.2),
            by rw [openListIn, if_neg hc]; simp [heq, heq2, ebind_ok], hall3⟩
        · exact Or.inr
            (by rw [openListIn, if_neg hc]; simp [heq, herr2, ebind_ok, ebind_error])
      · exact Or.inr (by rw [openListIn, if_neg hc]; simp [herr, ebind_error])

/-- A pair transition never raises the registry TypeError on a registered
stack. -/
theorem transition_ok_or_stackError (left right : ContentUnit) (st : List Ann)
    (hall : RegStack st) :
    (∃ p : String × List Ann, transition left right st = .ok p ∧ RegStack p.2) ∨
      transition left right st = .error .stackError := by
  cases left with
  | plain cl =>
    cases right with
    | plain cr => exact Or.inl ⟨("", st), rfl, hall⟩
    | annotated cr rAnns => exact openList_ok_or_stackError rAnns st hall
  | annotated cl lAnns =>
    cases right with
    | plain cr => exact closeList_ok_or_stackError lAnns st hall
    | annotated cr rAnns =>
      rcases closeListIn_ok_or_stackError rAnns lAnns st hall with
        ⟨p1, heq1, hall1⟩ | herr1
      · rcases openListIn_ok_or_stackError lAnns rAnns p1.2 hall1 with
          ⟨p2, heq2, hall2⟩ | herr2
        · exact Or.inl ⟨(p1.1 ++ p2.1, p2.2),
            by simp [transition, heq1, heq2, ebind_ok], hall2⟩
        · exact Or.inr
            (by simp [transition, heq1, herr2, ebind_ok, ebind_error])
      · exact Or.inr (by simp [transition, herr1, ebind_error])

/-- The render loop never raises the registry TypeError on a registered
stack. -/
theorem renderLoop_ok_or_stackError : ∀ (data : List ContentUnit)
    (left : ContentUnit) (st : List Ann), RegStack st →
    (∃ p : String × List Ann, renderLoop left st data = .ok p ∧ RegStack p.2) ∨
      renderLoop left st data = .error .stackError := by
  intro data
  induction data with
  | nil =>
    intro left st hall
    by_cases hp : left.isPlain
    · exact Or.inl ⟨("", st), by rw [renderLoop, if_pos hp], hall⟩
    · rcases closeList_ok_or_stackError left.anns st hall with
        ⟨p, heq, hall2⟩ | herr
      · exact Or.inl ⟨p, by rw [renderLoop, if_neg hp]; exact heq, hall2⟩
      · exact Or.inr (by rw [renderLoop, if_neg hp]; exact herr)
  | cons r rest ih =>
    intro left st hall
    rcases transition_ok_or_stackError left r st hall with ⟨p1, heq1, hall1⟩ | herr1
    · rcases ih r p1.2 hall1 with ⟨p2, heq2, hall2⟩ | herr2
      · exact Or.inl ⟨(p1.1 ++ renderChar r ++ p2.1, p2.2),
          by simp [renderLoop, heq1, heq2, ebind_ok], hall2⟩
      · exact Or.inr (by simp [renderLoop, heq1, herr2, ebind_ok, ebind_error])
    · exact Or.inr (by simp [renderLoop, herr1, ebind_error])

/-- `getHtml` either succeeds or fails with the invalid-stack error; the
TypeError of a missed registry lookup is unreachable. -/
theorem getHtml_ok_or_stackError (range : Option VeRange)
    (data : List ContentUnit) :
    (∃ s, getHtml range data = .ok s) ∨
      getHtml range data = .error .stackError := by
  rcases renderLoop_ok_or_stackError data (.plain "") []
      (fun b hb => absurd hb (List.not_mem_nil b)) with ⟨p, heq, _⟩ | herr
  · exact Or.inl ⟨p.1, by simp [getHtml, heq, Except.map]⟩
  · exact Or.inr (by simp [getHtml, herr, Except.map])

/-! ## Claim theorems -/

/-- Shared helper: a close request for a registered annotation absent from
the stack throws the invalid-stack error. -/
theorem renderAnn_close_absent {a : Ann} {stack : List Ann}
    (hreg : isReg a = true) (habs : a ∉ stack) :
    renderAnn .close a stack = .error .stackError := by
  obtain ⟨rule, hrule⟩ := Option.isSome_iff_exists.mp hreg
  have htop : ¬stack.getLast? = some a :=
    fun h => habs (List.mem_of_mem_getLast? h)
  have hidx : inArrayIdx a stack = none := inArrayIdx_eq_none.mpr habs
  simp [renderAnn, hrule, htop, hidx]

/-- The concatenation of the escaped forms of the units' characters, with no
tag markup (the specification's description of all-plain output). -/
def escapedConcat : List ContentUnit → String
  | [] => ""
  | u :: rest => renderChar u ++ escapedConcat rest

/-- On all-plain data the render loop leaves the stack untouched and outputs
the concatenation of the escaped characters. -/
theorem renderLoop_all_plain : ∀ (data : List ContentUnit) (left : ContentUnit)
    (st : List Ann), left.isPlain = true → (∀ u ∈ data, u.isPlain = true) →
    renderLoop left st data = .ok (escapedConcat data, st) := by
  intro data
  induction data with
  | nil =>
    intro left st hp _
    rw [renderLoop, if_pos hp]
    rfl
  | cons r rest ih =>
    intro left st hp hall
    have hrp : r.isPlain = true := hall r (by simp)
    obtain ⟨cl, hleft⟩ : ∃ s, left = .plain s := by
      cases left with
      | plain s => exact ⟨s, rfl⟩
      | annotated s l => simp [ContentUnit.isPlain] at hp
    obtain ⟨cr, hright⟩ : ∃ s, r = .plain s := by
      cases r with
      | plain s => exact ⟨s, rfl⟩
      | annotated s l => simp [ContentUnit.isPlain] at hrp
    subst hleft
    subst hright
    rw [renderLoop]
    have ht : transition (.plain cl) (.plain cr) st = .ok ("", st) := rfl
    rw [ht, ebind_ok, ih (.plain cr) st rfl (fun u hu => hall u (by simp [hu])),
      ebind_ok]
    show Except.ok ("" ++ renderChar (.plain cr) ++ escapedConcat rest, st) =
      Except.ok (escapedConcat (ContentUnit.plain cr :: rest), st)
    simp [escapedConcat, String.empty_append]

/-- C1: a close request for an annotation A present in the stack but not its
innermost element emits, in order, the close markup of every annotation
above A innermost-to-outermost, then A's close markup, then the open markup
of those covering annotations in stack order; A is removed from its non-top
position and the covering annotations remain.  In particular, for the
three-unit input with unit annotation sets {A}, {A,B}, {B}, the transition
from unit 2 to unit 3 emits exactly close(B), close(A), open(B). -/
theorem claim1_buried_close :
    (∀ (a : Ann) (stack : List Ann), isReg a = true →
      (∀ b ∈ stack, isReg b = true) → a ∈ stack → stack.getLast? ≠ some a →
      ∃ d, inArrayIdx a stack = some d ∧
        renderAnn .close a stack = .ok
          (joinEv (((stack.drop (d + 1)).reverse).map REvent.closed) ++
            closeMarkup a ++ joinEv ((stack.drop (d + 1)).map REvent.opened),
          stack.take d ++ stack.drop (d + 1)))
    ∧ transition (.annotated "x" [annA, annB]) (.annotated "y" [annB])
        [annA, annB] = .ok ("</i></b><i>", [annB]) := by
  constructor
  · intro a stack hreg hall hmem htop
    obtain ⟨d, hd⟩ := inArrayIdx_exists_of_mem hmem
    obtain ⟨rule, hrule⟩ := Option.isSome_iff_exists.mp hreg
    have hdrop : ∀ b ∈ stack.drop (d + 1), isReg b = true :=
      fun b hb => hall b (List.drop_subset _ _ hb)
    have hrev : ∀ b ∈ (stack.drop (d + 1)).reverse, isReg b = true :=
      fun b hb => hdrop b (List.mem_reverse.mp hb)
    refine ⟨d, hd, ?_⟩
    simp [renderAnn, hrule, htop, hd, closeSeq_of_reg hrev, openSeq_of_reg hdrop,
      ebind_ok, closeMarkup]
  · rfl

/-- C1 witness: closing `annA`, buried under `annB` on the stack
`[annA, annB]`. -/
theorem claim1_buried_close_witness :
    ∃ d, inArrayIdx annA [annA, annB] = some d ∧
      renderAnn .close annA [annA, annB] = .ok
        (joinEv ((([annA, annB].drop (d + 1)).reverse).map REvent.closed) ++
          closeMarkup annA ++
          joinEv (([annA, annB].drop (d + 1)).map REvent.opened),
        [annA, annB].take d ++ [annA, annB].drop (d + 1)) :=
  claim1_buried_close.1 annA [annA, annB] rfl (by decide) (by decide) (by decide)

/-- C2 counterexample: a close request for an annotation instance whose type
is unregistered, absent from the (empty) stack, silently returns the empty
string with no error — refuting "regardless of its type". -/
theorem claim2_counterexample :
    inArrayIdx annU [] = none ∧ renderAnn .close annU [] = .ok ("", []) :=
  ⟨rfl, rfl⟩

/-- C2 (amended): a close request for an annotation instance of a REGISTERED
type that is absent from the stack aborts the render call with the
invalid-stack error (StackConsistencyError) and returns no partial output;
for an unregistered type the request is a silent no-op instead. -/
theorem claim2_amended (a : Ann) (stack : List Ann) (hreg : isReg a = true)
    (habs : a ∉ stack) : renderAnn .close a stack = .error .stackError :=
  renderAnn_close_absent hreg habs

/-- C2 witness: a registered bold annotation absent from the stack. -/
theorem claim2_amended_witness :
    renderAnn .close annA [annB] = .error .stackError :=
  claim2_amended annA [annB] rfl (by decide)

/-- C3 counterexample: on the two-unit input whose last unit carries {A,B}
with B innermost, the output does not end with close(B), close(A) alone:
the trailing loop issues closes in the last unit's listed order (A first — a
buried close), so after close(B), close(A) the renderer additionally emits
open(B), close(B). -/
theorem claim3_counterexample :
    getHtml none [.annotated "c" [annA], .annotated "d" [annA, annB]] =
        .ok "<b>c<i>d</i></b><i></i>" ∧
      renderLoopEv (.plain "") []
          [.annotated "c" [annA], .annotated "d" [annA, annB]] =
        .ok ([.opened annA, .text "c", .opened annB, .text "d",
          .closed annB, .closed annA, .opened annB, .closed annB], []) ∧
      (List.drop 4 [REvent.opened annA, .text "c", .opened annB, .text "d",
          .closed annB, .closed annA, .opened annB, .closed annB] ==
        [REvent.closed annB, REvent.closed annA]) = false := by
  refine ⟨rfl, rfl, by decide⟩

/-- C3 (amended): after the last unit's character the renderer issues a close
request for each of the last unit's annotations in their listed order (not
innermost-to-outermost); every annotation still on the stack is closed and
the stack is fully drained, but a close of a buried annotation inserts
re-open/close markup for the annotations above it: with {A,B} open, B
innermost and A listed first, the output ends close(B), close(A), open(B),
close(B). -/
theorem claim3_amended :
    (∀ (anns stack : List Ann), anns.Nodup → stack.Nodup →
      (∀ x ∈ stack, x ∈ anns ∧ isReg x = true) →
      (∀ x ∈ anns, isReg x = true → x ∈ stack) →
      ∃ out, closeList anns stack = .ok (out, []))
    ∧ closeList [annA, annB] [annA, annB] = .ok ("</i></b><i></i>", []) :=
  ⟨closeList_drain, rfl⟩

/-- C3 witness: the drain part applied to the two-annotation trailing
stack. -/
theorem claim3_amended_witness :
    ∃ out, closeList [annA, annB] [annB, annA] = .ok (out, []) :=
  claim3_amended.1 [annA, annB] [annB, annA] (by decide) (by decide) (by decide)
    (by decide)

/-- C4: each pair transition computes the identity-based symmetric
difference: it closes the previous unit's annotations absent from the
current unit in listed order, then opens the current unit's annotations
absent from the previous unit in listed order; annotations on both sides get
no close/open request, and a plain unit counts as the empty annotation
set. -/
theorem claim4_symmetric_diff (left right : ContentUnit) (stack : List Ann) :
    transition left right stack = transitionSpec left right stack :=
  transition_eq_spec left right stack

/-- C5: membership in the diff and the stack is instance identity, not
structural equality: for two distinct instances of structurally identical
annotations, a close request for one is never satisfied by the other's
presence on the stack (it throws), and at a transition the pair is closed
and re-opened rather than merged into a no-op. -/
theorem claim5_identity (a1 a2 : Ann) (htype : a1.type = a2.type)
    (_hdata : a1.data = a2.data) (hne : a1 ≠ a2) (hreg : isReg a1 = true) :
    renderAnn .close a1 [a2] = .error .stackError ∧
      transition (.annotated "x" [a1]) (.annotated "y" [a2]) [a1] =
        .ok (closeMarkup a1 ++ openMarkup a2, [a2]) := by
  have hreg2 : isReg a2 = true := by
    rw [isReg, ← htype]
    exact hreg
  obtain ⟨r1, hr1⟩ := Option.isSome_iff_exists.mp hreg
  obtain ⟨r2, hr2⟩ := Option.isSome_iff_exists.mp hreg2
  constructor
  · exact renderAnn_close_absent hreg (by simp [hne])
  · simp [transition, closeListIn, openListIn, hne, Ne.symm hne, renderAnn,
      hr1, hr2, ebind_ok, closeMarkup, openMarkup, String.append_empty]

/-- C5 witness: two bold instances with identical type and payload but
distinct references. -/
theorem claim5_witness :
    renderAnn .close annA [annA2] = .error .stackError ∧
      transition (.annotated "x" [annA]) (.annotated "y" [annA2]) [annA] =
        .ok (closeMarkup annA ++ openMarkup annA2, [annA2]) :=
  claim5_identity annA annA2 rfl rfl (by decide) rfl

/-- C6: an annotation whose type has no registry entry contributes no markup
and never touches the stack, for both open and close requests, and the
character carrying it renders exactly as it would without the annotation. -/
theorem claim6_unknown_type (a : Ann) (h : annotationRenderers a.type = none) :
    (∀ (bias : Bias) (stack : List Ann), renderAnn bias a stack = .ok ("", stack))
    ∧ ∀ c : String, getHtml none [.annotated c [a]] = getHtml none [.plain c] := by
  constructor
  · exact renderAnn_unreg h
  · intro c
    simp [getHtml, renderLoop, transition, openList, closeList, renderAnn_unreg h,
      ebind_ok, ContentUnit.anns, ContentUnit.isPlain, Except.map,
      String.append_empty, String.empty_append, renderChar, ContentUnit.chr]

/-- C6 witness: the unregistered annotation `annU` on the character "x". -/
theorem claim6_witness :
    renderAnn .open_ annU [annA] = .ok ("", [annA]) ∧
      getHtml none [.annotated "x" [annU]] = getHtml none [.plain "x"] :=
  ⟨(claim6_unknown_type annU rfl).1 .open_ [annA],
    (claim6_unknown_type annU rfl).2 "x"⟩

/-- C7 counterexample: a unit carrying the same annotation instance twice
makes the render call return successfully while an instance stays on the
final stack and its open count exceeds its close count — refuting the claim
for arbitrary inputs. -/
theorem claim7_counterexample :
    renderLoopEv (.plain "") []
        [.annotated "c" [annA, annA], .annotated "d" [annA], .plain "e"] =
      .ok ([.opened annA, .opened annA, .text "c", .text "d",
        .closed annA, .text "e"], [annA]) ∧
      [REvent.opened annA, .opened annA, .text "c", .text "d",
        .closed annA, .text "e"].count (REvent.opened annA) = 2 ∧
      [REvent.opened annA, .opened annA, .text "c", .text "d",
        .closed annA, .text "e"].count (REvent.closed annA) = 1 ∧
      getHtml none
          [.annotated "c" [annA, annA], .annotated "d" [annA], .plain "e"] =
        .ok "<b><b>cd</b>e" := by
  refine ⟨rfl, by decide, by decide, rfl⟩

/-- C7 (amended): for every input whose units carry duplicate-free annotation
lists, a successful render pass ends with an empty stack, its emitted tag
events are accepted by the nesting automaton ending empty (every open has a
matching properly nested close), each instance's open count equals its close
count, and the output string is the rendering of those events. -/
theorem claim7_amended (data : List ContentUnit) (evs : List REvent)
    (stF : List Ann) (hnd : ∀ u ∈ data, u.anns.Nodup)
    (h : renderLoopEv (.plain "") [] data = .ok (evs, stF)) :
    stF = [] ∧ checkNested [] evs = some [] ∧
      (∀ a : Ann, evs.count (REvent.opened a) = evs.count (REvent.closed a)) ∧
      getHtml none data = .ok (joinEv evs) := by
  have hstr : renderLoop (.plain "") [] data = .ok (joinEv evs, stF) := by
    rw [renderLoop_corr, h]
    rfl
  have hF : stF = [] := renderLoop_inv data (.plain "") [] (joinEv evs) stF hnd
    (by simp [ContentUnit.anns])
    List.nodup_nil
    (fun x hx => absurd hx (List.not_mem_nil x))
    (fun x hx => absurd hx (by simp [ContentUnit.anns]))
    hstr
  subst hF
  have hcheck : checkNested [] evs = some [] := renderLoopEv_check data h
  refine ⟨rfl, hcheck, ?_, ?_⟩
  · intro a
    have hcount := checkNested_count evs hcheck a
    simpa using hcount
  · rw [getHtml_events, h]
    rfl

/-- C7 witness: a one-unit annotated input. -/
theorem claim7_witness :
    ([] : List Ann) = [] ∧
      checkNested [] [REvent.opened annA, .text "c", .closed annA] = some [] ∧
      (∀ a : Ann, [REvent.opened annA, .text "c", .closed annA].count
          (REvent.opened a) =
        [REvent.opened annA, .text "c", .closed annA].count (REvent.closed a)) ∧
      getHtml none [.annotated "c" [annA]] =
        .ok (joinEv [REvent.opened annA, .text "c", .closed annA]) :=
  claim7_amended [.annotated "c" [annA]]
    [.opened annA, .text "c", .closed annA] [] (by decide) rfl

/-- C8: on all-plain input the output is the concatenation of each
character's escaped form (the `htmlCharacters` substitution when present,
the character itself otherwise) with no tag markup; the empty input yields
the empty string. -/
theorem claim8_plain :
    (∀ data : List ContentUnit, (∀ u ∈ data, u.isPlain = true) →
      getHtml none data = .ok (escapedConcat data))
    ∧ getHtml none [] = .ok "" := by
  constructor
  · intro data h
    simp [getHtml, renderLoop_all_plain data (.plain "") [] rfl h, Except.map]
  · rfl

/-- C8 witness: a two-character plain input with one escaped character. -/
theorem claim8_witness :
    getHtml none [.plain "<", .plain "a"] =
      .ok (escapedConcat [.plain "<", .plain "a"]) :=
  claim8_plain.1 [.plain "<", .plain "a"] (by decide)

/-- C9: the optional range argument of `getHtml` is normalized but never
read afterwards: a call with any range returns the same string as a call
with no range on the same data. -/
theorem claim9_range_ignored (r : VeRange) (data : List ContentUnit) :
    getHtml (some r) data = getHtml none data := rfl

/-- C10: during a render pass the stack holds only annotations with
registered types (pushes happen only inside the registry guard), so the
unguarded `renderers[stack[i].type]` lookups of the buried-close path always
find a render rule: a render call either succeeds or fails with the
invalid-stack error, and the missing-registry-entry TypeError is
unreachable. -/
theorem claim10_no_type_error (range : Option VeRange)
    (data : List ContentUnit) :
    (∃ s, getHtml range data = .ok s) ∨
      getHtml range data = .error .stackError :=
  getHtml_ok_or_stackError range data
